import Mathlib

/-!
Verification of the FIT-file rewrite pipeline of `myWhoosh2Garmin.py`.

A message's field table is modelled as an association list from numeric FIT
field identifiers to integer values; a field is present iff its identifier
occurs in the table (absent is distinct from present-with-zero).  The
single-pass transform of `cleanup_fit_file`, the helper functions
`calculate_avg`, `append_value` and `reset_values`, the filename selection of
`get_most_recent_fit_file`, and the control flow of
`cleanup_and_save_fit_file`, `upload_fit_file_to_garmin` and `main` are
translated directly from the Python source.  The binary decoder lives in the
third-party `fit_tool` library, so it is modelled from the specification.
-/

namespace MW2G

/-- FIT field identifier (a small integer in the real profile). -/
abbrev FieldId := Nat

/-- A message's field table: association list from field identifier to value.
A field is present iff its identifier occurs; absent is distinct from
present-with-zero. -/
abbrev FieldTable := List (FieldId × Int)

/-- Look up a field by identifier; `none` means the field is absent
(`getattr(message, name, None)` returning `None`). -/
def getField (t : FieldTable) (i : FieldId) : Option Int :=
  (t.find? (fun p => p.1 == i)).map (·.2)

/-- Set a field's value (`setattr(message, name, val)`): any existing binding
for the identifier is replaced. -/
def setField (t : FieldTable) (i : FieldId) (v : Int) : FieldTable :=
  t.filter (fun p => p.1 ≠ i) ++ [(i, v)]

/-- `message.remove_field(field_id)`: delete the binding for the identifier,
by identifier match only. -/
def remove_field (t : FieldTable) (i : FieldId) : FieldTable :=
  t.filter (fun p => p.1 ≠ i)

/-- Field identifiers of the Record message used by the pipeline
(FIT global profile numbers). -/
def RecordField.heart_rate : FieldId := 3
def RecordField.cadence : FieldId := 4
def RecordField.power : FieldId := 7
/-- `RecordTemperatureField.ID` in `fit_tool`. -/
def RecordField.temperature : FieldId := 13

/-- Field identifiers of the Session message used by the pipeline. -/
def SessionField.event : FieldId := 0
def SessionField.event_type : FieldId := 1
def SessionField.start_time : FieldId := 2
def SessionField.sport : FieldId := 5
def SessionField.sub_sport : FieldId := 6
def SessionField.total_elapsed_time : FieldId := 7
def SessionField.total_timer_time : FieldId := 8
def SessionField.total_distance : FieldId := 9
def SessionField.total_calories : FieldId := 11
def SessionField.avg_speed : FieldId := 14
def SessionField.max_speed : FieldId := 15
def SessionField.avg_heart_rate : FieldId := 16
def SessionField.avg_cadence : FieldId := 18
def SessionField.avg_power : FieldId := 20
def SessionField.first_lap_index : FieldId := 25
def SessionField.num_laps : FieldId := 26
def SessionField.timestamp : FieldId := 253
def SessionField.message_index : FieldId := 254

/-- Field identifiers of the Lap message used by the pipeline. -/
def LapField.start_time : FieldId := 2
def LapField.total_elapsed_time : FieldId := 7
def LapField.total_distance : FieldId := 9
def LapField.total_calories : FieldId := 11
def LapField.avg_speed : FieldId := 13
def LapField.max_speed : FieldId := 14
def LapField.avg_heart_rate : FieldId := 15
def LapField.max_heart_rate : FieldId := 16
def LapField.avg_cadence : FieldId := 17
def LapField.max_cadence : FieldId := 18

/-- A decoded FIT message: a tagged variant over the kinds the pipeline
distinguishes by `isinstance`, each holding a field table. -/
inductive Message where
  | fileCreator (fields : FieldTable)
  | record (fields : FieldTable)
  | lap (fields : FieldTable)
  | session (fields : FieldTable)
  | other (fields : FieldTable)
  deriving DecidableEq, Repr

def Message.isSession : Message → Bool
  | .session _ => true
  | _ => false

def Message.isRecord : Message → Bool
  | .record _ => true
  | _ => false

/-- `calculate_avg`: the arithmetic mean of a list of values, `0` if the list
is empty (`sum(values)/len(values) if values else 0.0`). -/
def calculate_avg (values : List Int) : Rat :=
  if values = [] then 0 else (values.sum : Rat) / (values.length : Rat)

/-- Python `int(...)` on a number: truncation toward zero.  For a rational in
lowest terms this is the numerator divided by the denominator with
truncating division. -/
def intTrunc (q : Rat) : Int :=
  q.num.tdiv (q.den : Int)

/-- Python truthiness substitution in `append_value`:
`value if value else 0` with `value = getattr(message, name, None)` —
an absent field (`None`) and a zero value both give `0`. -/
def truthyOrZero : Option Int → Int
  | none => 0
  | some v => if v = 0 then 0 else v

/-- `append_value(values, message, field_name)`: append the field's value to
the list, substituting `0` for an absent (or falsy) value. -/
def append_value (values : List Int) (t : FieldTable) (i : FieldId) : List Int :=
  values ++ [truthyOrZero (getField t i)]

/-- The pipeline's window accumulators: the four growable lists
`lap_values, cadence_values, power_values, heart_rate_values`. -/
structure WindowState where
  lap_values : List Int
  cadence_values : List Int
  power_values : List Int
  heart_rate_values : List Int
  deriving DecidableEq, Repr

/-- `reset_values()`: four fresh empty lists. -/
def reset_values : WindowState := ⟨[], [], [], []⟩

/-- `SESSION_COPY_FIELDS`: the whitelist of Session fields copied verbatim
from the original session if present. -/
def SESSION_COPY_FIELDS : List FieldId :=
  [SessionField.message_index, SessionField.timestamp, SessionField.start_time,
   SessionField.sport, SessionField.sub_sport, SessionField.event,
   SessionField.event_type, SessionField.first_lap_index, SessionField.num_laps,
   SessionField.total_elapsed_time, SessionField.total_timer_time,
   SessionField.total_distance, SessionField.total_calories,
   SessionField.avg_speed, SessionField.max_speed]

/-- The Session branch of `cleanup_fit_file`: build a new `SessionMessage`,
copy each whitelist field that is present, then set the three averages —
copied when present in the input (`is None` check), otherwise
`int(calculate_avg(...))` over the corresponding window list. -/
def build_new_session (f : FieldTable) (st : WindowState) : FieldTable :=
  let base := SESSION_COPY_FIELDS.foldl
    (fun acc i => match getField f i with
      | some v => setField acc i v
      | none => acc) []
  let s1 := setField base SessionField.avg_cadence
    (match getField f SessionField.avg_cadence with
      | none => intTrunc (calculate_avg st.cadence_values)
      | some v => v)
  let s2 := setField s1 SessionField.avg_power
    (match getField f SessionField.avg_power with
      | none => intTrunc (calculate_avg st.power_values)
      | some v => v)
  setField s2 SessionField.avg_heart_rate
    (match getField f SessionField.avg_heart_rate with
      | none => intTrunc (calculate_avg st.heart_rate_values)
      | some v => v)

/-- The Lap branch of `cleanup_fit_file`: ten `append_value` calls on
`lap_values` in source order. -/
def lapAppend (lv : List Int) (f : FieldTable) : List Int :=
  let l1 := append_value lv f LapField.start_time
  let l2 := append_value l1 f LapField.total_elapsed_time
  let l3 := append_value l2 f LapField.total_distance
  let l4 := append_value l3 f LapField.avg_speed
  let l5 := append_value l4 f LapField.max_speed
  let l6 := append_value l5 f LapField.avg_heart_rate
  let l7 := append_value l6 f LapField.max_heart_rate
  let l8 := append_value l7 f LapField.avg_cadence
  let l9 := append_value l8 f LapField.max_cadence
  append_value l9 f LapField.total_calories

/-- One iteration of the `for record in fit_file.records` loop of
`cleanup_fit_file`: given the current window state and the message, return
the new window state and the messages added to the builder at this step.
A Lap falls through (no `continue`) to the default `builder.add(message)`;
a Record has its temperature field removed and is then sampled and added;
a Session is replaced by a freshly built one and resets the window. -/
def processMessage (st : WindowState) (m : Message) : WindowState × List Message :=
  match m with
  | .lap f =>
      ({ st with lap_values := lapAppend st.lap_values f }, [.lap f])
  | .record f =>
      let f2 := remove_field f RecordField.temperature
      ({ st with
          cadence_values := append_value st.cadence_values f2 RecordField.cadence,
          power_values := append_value st.power_values f2 RecordField.power,
          heart_rate_values := append_value st.heart_rate_values f2 RecordField.heart_rate },
       [.record f2])
  | .session f =>
      (reset_values, [.session (build_new_session f st)])
  | m => (st, [m])

/-- Run the loop of `cleanup_fit_file` from a given window state over the
remaining decoded messages, producing the messages handed to the builder
in order. -/
def runPipeline : WindowState → List Message → List Message
  | _, [] => []
  | st, m :: rest =>
      let s := processMessage st m
      s.2 ++ runPipeline s.1 rest

/-- The window state after the loop has consumed the given messages. -/
def windowAfter (st : WindowState) : List Message → WindowState
  | [] => st
  | m :: rest => windowAfter (processMessage st m).1 rest

/-- `cleanup_fit_file` as a message-stream transform: the loop starting from
the freshly reset window accumulators. -/
def cleanup_fit_file (msgs : List Message) : List Message :=
  runPipeline reset_values msgs

/-- The window sample list for one Record field over a message stream: one
entry per Record message, with `0` substituted for an absent (or falsy)
sample, taken after temperature removal as in the loop. -/
def recordSamples (i : FieldId) (msgs : List Message) : List Int :=
  msgs.filterMap (fun m => match m with
    | .record f => some (truthyOrZero (getField (remove_field f RecordField.temperature) i))
    | _ => none)

/-! ### Field-table lemmas -/

theorem find?_filter_ne_self (t : FieldTable) (i : FieldId) :
    (t.filter (fun p => p.1 ≠ i)).find? (fun p => p.1 == i) = none := by
  rw [List.find?_eq_none]
  intro a ha
  have h := List.of_mem_filter ha
  simp only [decide_not, Bool.not_eq_true'] at h
  simpa using of_decide_eq_false h

theorem find?_filter_ne (t : FieldTable) (i j : FieldId) (h : j ≠ i) :
    (t.filter (fun p => p.1 ≠ i)).find? (fun p => p.1 == j) =
      t.find? (fun p => p.1 == j) := by
  induction t with
  | nil => rfl
  | cons p t ih =>
      obtain ⟨k, w⟩ := p
      by_cases hk : k = i
      · rw [List.filter_cons, if_neg (by simp [hk])]
        rw [List.find?_cons_of_neg _ (by simp [hk, Ne.symm h])]
        exact ih
      · rw [List.filter_cons, if_pos (by simp [hk])]
        by_cases hkj : k = j
        · rw [List.find?_cons_of_pos _ (by simp [hkj]),
            List.find?_cons_of_pos _ (by simp [hkj])]
        · rw [List.find?_cons_of_neg _ (by simp [hkj]),
            List.find?_cons_of_neg _ (by simp [hkj])]
          exact ih

theorem getField_setField_self (t : FieldTable) (i : FieldId) (v : Int) :
    getField (setField t i v) i = some v := by
  unfold getField setField
  rw [List.find?_append, find?_filter_ne_self]
  simp [List.find?]

theorem getField_setField_ne (t : FieldTable) (i j : FieldId) (v : Int)
    (h : j ≠ i) : getField (setField t i v) j = getField t j := by
  unfold getField setField
  rw [List.find?_append, find?_filter_ne t i j h]
  have h2 : List.find? (fun p => p.1 == j) [(i, v)] = none := by
    rw [List.find?_cons_of_neg _ (by simp [Ne.symm h])]
    rfl
  rw [h2, Option.or_none]

theorem getField_remove_self (t : FieldTable) (i : FieldId) :
    getField (remove_field t i) i = none := by
  unfold getField remove_field
  rw [find?_filter_ne_self]
  rfl

theorem getField_remove_ne (t : FieldTable) (i j : FieldId) (h : j ≠ i) :
    getField (remove_field t i) j = getField t j := by
  unfold getField remove_field
  rw [find?_filter_ne t i j h]

/-! ### `build_new_session` characterization -/

/-- The value the Session branch assigns to one average field: copied when
present in the input, else the truncated mean of the given window list. -/
def avgFieldValue (f : FieldTable) (i : FieldId) (window : List Int) : Int :=
  match getField f i with
  | none => intTrunc (calculate_avg window)
  | some v => v

theorem getField_copyFold (f : FieldTable) (L : List FieldId) (acc : FieldTable)
    (j : FieldId) :
    getField (L.foldl (fun acc i => match getField f i with
      | some v => setField acc i v
      | none => acc) acc) j =
    (match getField f j with
      | some v => if j ∈ L then some v else getField acc j
      | none => getField acc j) := by
  induction L generalizing acc with
  | nil => cases h : getField f j <;> simp [h]
  | cons i L ih =>
      rw [List.foldl_cons, ih]
      by_cases hji : j = i
      · subst hji
        cases h : getField f j with
        | none => simp [h]
        | some v => by_cases hL : j ∈ L <;> simp [h, hL, getField_setField_self]
      · cases h : getField f j with
        | none =>
            cases hi : getField f i with
            | none => simp [h]
            | some w => simp [h, getField_setField_ne acc i j w hji]
        | some v =>
            by_cases hL : j ∈ L
            · simp [h, hL]
            · cases hi : getField f i with
              | none => simp [h, hL, hji]
              | some w => simp [h, hL, hji, getField_setField_ne acc i j w hji]

theorem getField_build_new_session (f : FieldTable) (st : WindowState)
    (j : FieldId) :
    getField (build_new_session f st) j =
      (if j = SessionField.avg_heart_rate then
        some (avgFieldValue f SessionField.avg_heart_rate st.heart_rate_values)
      else if j = SessionField.avg_power then
        some (avgFieldValue f SessionField.avg_power st.power_values)
      else if j = SessionField.avg_cadence then
        some (avgFieldValue f SessionField.avg_cadence st.cadence_values)
      else if j ∈ SESSION_COPY_FIELDS then getField f j else none) := by
  unfold build_new_session
  by_cases hh : j = SessionField.avg_heart_rate
  · subst hh
    simp [getField_setField_self, avgFieldValue]
  · rw [getField_setField_ne _ _ _ _ hh]
    by_cases hp : j = SessionField.avg_power
    · subst hp
      simp [getField_setField_self, avgFieldValue, hh]
    · rw [getField_setField_ne _ _ _ _ hp]
      by_cases hc : j = SessionField.avg_cadence
      · subst hc
        simp [getField_setField_self, avgFieldValue, hh, hp]
      · rw [getField_setField_ne _ _ _ _ hc]
        rw [getField_copyFold]
        cases h : getField f j with
        | none =>
            simp only [hh, hp, hc, if_false, getField]
            simp [List.find?]
        | some v => simp [hh, hp, hc, getField, List.find?]

/-! ### Pipeline structural lemmas -/

theorem runPipeline_append (st : WindowState) (xs ys : List Message) :
    runPipeline st (xs ++ ys) =
      runPipeline st xs ++ runPipeline (windowAfter st xs) ys := by
  induction xs generalizing st with
  | nil => rfl
  | cons m xs ih =>
      simp [runPipeline, windowAfter, ih, List.append_assoc]

theorem windowAfter_no_session (msgs : List Message) :
    ∀ st : WindowState, (∀ m ∈ msgs, m.isSession = false) →
      (windowAfter st msgs).cadence_values
          = st.cadence_values ++ recordSamples RecordField.cadence msgs ∧
      (windowAfter st msgs).power_values
          = st.power_values ++ recordSamples RecordField.power msgs ∧
      (windowAfter st msgs).heart_rate_values
          = st.heart_rate_values ++ recordSamples RecordField.heart_rate msgs := by
  induction msgs with
  | nil => intro st _; simp [windowAfter, recordSamples]
  | cons m msgs ih =>
      intro st h
      have hm := h m (by simp)
      have hrest : ∀ m' ∈ msgs, m'.isSession = false :=
        fun m' hm' => h m' (by simp [hm'])
      cases m with
      | session f => simp [Message.isSession] at hm
      | record f =>
          obtain ⟨hc, hp, hh⟩ := ih (processMessage st (Message.record f)).1 hrest
          refine ⟨?_, ?_, ?_⟩
          all_goals
            simp only [windowAfter]
            simp only [hc, hp, hh]
            simp [processMessage, append_value, recordSamples]
      | lap f =>
          obtain ⟨hc, hp, hh⟩ := ih (processMessage st (Message.lap f)).1 hrest
          refine ⟨?_, ?_, ?_⟩
          all_goals
            simp only [windowAfter]
            simp only [hc, hp, hh]
            simp [processMessage, recordSamples]
      | fileCreator f =>
          obtain ⟨hc, hp, hh⟩ :=
            ih (processMessage st (Message.fileCreator f)).1 hrest
          refine ⟨?_, ?_, ?_⟩
          all_goals
            simp only [windowAfter]
            simp only [hc, hp, hh]
            simp [processMessage, recordSamples]
      | other f =>
          obtain ⟨hc, hp, hh⟩ := ih (processMessage st (Message.other f)).1 hrest
          refine ⟨?_, ?_, ?_⟩
          all_goals
            simp only [windowAfter]
            simp only [hc, hp, hh]
            simp [processMessage, recordSamples]

theorem runPipeline_lap_irrel (msgs : List Message) :
    ∀ s1 s2 : WindowState,
      s1.cadence_values = s2.cadence_values →
      s1.power_values = s2.power_values →
      s1.heart_rate_values = s2.heart_rate_values →
      runPipeline s1 msgs = runPipeline s2 msgs := by
  induction msgs with
  | nil => intro _ _ _ _ _; rfl
  | cons m msgs ih =>
      intro s1 s2 hc hp hh
      cases m with
      | session f =>
          have hb : build_new_session f s1 = build_new_session f s2 := by
            simp only [build_new_session, hc, hp, hh]
          simp [runPipeline, processMessage, hb]
      | record f =>
          simp only [runPipeline, processMessage]
          refine congrArg _ (ih _ _ ?_ ?_ ?_) <;> simp [hc, hp, hh]
      | lap f =>
          simp only [runPipeline, processMessage]
          refine congrArg _ (ih _ _ ?_ ?_ ?_) <;> simp [hc, hp, hh]
      | fileCreator f =>
          simp only [runPipeline, processMessage]
          exact congrArg _ (ih _ _ hc hp hh)
      | other f =>
          simp only [runPipeline, processMessage]
          exact congrArg _ (ih _ _ hc hp hh)

/-! ### Computing the truncated average -/

theorem intTrunc_intCast_div_natCast (a : ℤ) (d : ℕ) :
    intTrunc ((a : ℚ) / (d : ℚ)) = a.tdiv (d : ℤ) := by
  rcases le_or_lt 0 a with ha | ha
  · have hq : (0 : ℚ) ≤ (a : ℚ) / (d : ℚ) := by positivity
    have hnum : 0 ≤ ((a : ℚ) / (d : ℚ)).num := Rat.num_nonneg.mpr hq
    rw [intTrunc, Int.tdiv_eq_ediv hnum (by positivity), ← Rat.floor_def,
      Rat.floor_intCast_div_natCast, Int.tdiv_eq_ediv ha (by positivity)]
  · have hrw : (a : ℚ) / (d : ℚ) = -(((-a : ℤ) : ℚ) / (d : ℚ)) := by
      push_cast
      ring
    have hna : 0 ≤ -a := by omega
    have hq : (0 : ℚ) ≤ ((-a : ℤ) : ℚ) / (d : ℚ) := by positivity
    have hnum : 0 ≤ (((-a : ℤ) : ℚ) / (d : ℚ)).num := Rat.num_nonneg.mpr hq
    rw [hrw, intTrunc, Rat.neg_num, Rat.neg_den, Int.neg_tdiv,
      Int.tdiv_eq_ediv hnum (by positivity), ← Rat.floor_def,
      Rat.floor_intCast_div_natCast, ← Int.tdiv_eq_ediv hna (by positivity),
      Int.neg_tdiv, neg_neg]

/-- `int(calculate_avg(values))` computes the truncating integer division of
the sum by the length, and `0` on an empty list. -/
theorem intTrunc_calculate_avg (l : List Int) :
    intTrunc (calculate_avg l) =
      if l = [] then 0 else l.sum.tdiv (l.length : ℤ) := by
  by_cases h : l = []
  · subst h
    simp [calculate_avg, intTrunc]
  · rw [calculate_avg, if_neg h, if_neg h, intTrunc_intCast_div_natCast]

/-! ### Claim theorems: the rewrite pipeline -/

/-- C1: For a Session whose average power (cadence, heart rate) is absent,
the rebuilt Session carries the truncated-toward-zero arithmetic mean of the
window list, which holds one `0`-substituted sample per Record since the
last Session boundary (empty list means mean `0`). -/
theorem c1_absent_avg_recomputed (pre : List Message) (f : FieldTable)
    (rest : List Message) (h : ∀ m ∈ pre, m.isSession = false) :
    (windowAfter reset_values pre).cadence_values
        = recordSamples RecordField.cadence pre ∧
    (windowAfter reset_values pre).power_values
        = recordSamples RecordField.power pre ∧
    (windowAfter reset_values pre).heart_rate_values
        = recordSamples RecordField.heart_rate pre ∧
    cleanup_fit_file (pre ++ Message.session f :: rest)
      = cleanup_fit_file pre
          ++ Message.session (build_new_session f (windowAfter reset_values pre))
          :: runPipeline reset_values rest ∧
    (getField f SessionField.avg_cadence = none →
      getField (build_new_session f (windowAfter reset_values pre))
          SessionField.avg_cadence
        = some (intTrunc (calculate_avg (recordSamples RecordField.cadence pre)))) ∧
    (getField f SessionField.avg_power = none →
      getField (build_new_session f (windowAfter reset_values pre))
          SessionField.avg_power
        = some (intTrunc (calculate_avg (recordSamples RecordField.power pre)))) ∧
    (getField f SessionField.avg_heart_rate = none →
      getField (build_new_session f (windowAfter reset_values pre))
          SessionField.avg_heart_rate
        = some (intTrunc (calculate_avg (recordSamples RecordField.heart_rate pre)))) := by
  obtain ⟨hc, hp, hh⟩ := windowAfter_no_session pre reset_values h
  rw [show reset_values.cadence_values = [] from rfl, List.nil_append] at hc
  rw [show reset_values.power_values = [] from rfl, List.nil_append] at hp
  rw [show reset_values.heart_rate_values = [] from rfl, List.nil_append] at hh
  refine ⟨hc, hp, hh, ?_, ?_, ?_, ?_⟩
  · rw [cleanup_fit_file, cleanup_fit_file, runPipeline_append]
    simp [runPipeline, processMessage]
  · intro habs
    rw [getField_build_new_session, if_neg (by decide), if_neg (by decide),
      if_pos rfl]
    simp only [avgFieldValue, habs, hc]
  · intro habs
    rw [getField_build_new_session, if_neg (by decide), if_pos rfl]
    simp only [avgFieldValue, habs, hp]
  · intro habs
    rw [getField_build_new_session, if_pos rfl]
    simp only [avgFieldValue, habs, hh]

theorem c1_absent_avg_recomputed_witness :
    getField (build_new_session []
        (windowAfter reset_values
          [Message.record [(RecordField.power, 100)],
           Message.record [(RecordField.power, 201)]]))
      SessionField.avg_power = some 150 := by
  have h := c1_absent_avg_recomputed
    [Message.record [(RecordField.power, 100)],
     Message.record [(RecordField.power, 201)]] [] [] (by decide)
  rw [h.2.2.2.2.2.1 rfl, intTrunc_calculate_avg]
  decide

/-- C2: a present average (zero included) on the input Session is copied
unchanged onto the rebuilt Session, whatever the window accumulators hold,
and the rebuilt Session replaces the original in the stream. -/
theorem c2_present_avg_passthrough (st : WindowState) (f : FieldTable)
    (rest : List Message) :
    (∀ v : Int, getField f SessionField.avg_cadence = some v →
      getField (build_new_session f st) SessionField.avg_cadence = some v) ∧
    (∀ v : Int, getField f SessionField.avg_power = some v →
      getField (build_new_session f st) SessionField.avg_power = some v) ∧
    (∀ v : Int, getField f SessionField.avg_heart_rate = some v →
      getField (build_new_session f st) SessionField.avg_heart_rate = some v) ∧
    runPipeline st (Message.session f :: rest)
      = Message.session (build_new_session f st) :: runPipeline reset_values rest := by
  refine ⟨?_, ?_, ?_, by simp [runPipeline, processMessage]⟩
  · intro v hv
    rw [getField_build_new_session, if_neg (by decide), if_neg (by decide),
      if_pos rfl]
    simp only [avgFieldValue, hv]
  · intro v hv
    rw [getField_build_new_session, if_neg (by decide), if_pos rfl]
    simp only [avgFieldValue, hv]
  · intro v hv
    rw [getField_build_new_session, if_pos rfl]
    simp only [avgFieldValue, hv]

theorem c2_present_avg_passthrough_witness :
    getField (build_new_session
        [(SessionField.avg_cadence, 0), (SessionField.avg_power, 2),
         (SessionField.avg_heart_rate, 100)]
        ⟨[], [6, 8], [10], [20]⟩)
      SessionField.avg_cadence = some 0 ∧
    getField (build_new_session
        [(SessionField.avg_cadence, 0), (SessionField.avg_power, 2),
         (SessionField.avg_heart_rate, 100)]
        ⟨[], [6, 8], [10], [20]⟩)
      SessionField.avg_power = some 2 ∧
    getField (build_new_session
        [(SessionField.avg_cadence, 0), (SessionField.avg_power, 2),
         (SessionField.avg_heart_rate, 100)]
        ⟨[], [6, 8], [10], [20]⟩)
      SessionField.avg_heart_rate = some 100 := by
  have h := c2_present_avg_passthrough ⟨[], [6, 8], [10], [20]⟩
    [(SessionField.avg_cadence, 0), (SessionField.avg_power, 2),
     (SessionField.avg_heart_rate, 100)] []
  exact ⟨h.1 0 (by decide), h.2.1 2 (by decide), h.2.2.1 100 (by decide)⟩

/-- C3: every Record is forwarded immediately, in place, with the
temperature field identifier removed and every other field unchanged. -/
theorem c3_record_temperature_stripped (st : WindowState) (f : FieldTable)
    (rest : List Message) (j : FieldId) (hj : j ≠ RecordField.temperature) :
    runPipeline st (Message.record f :: rest)
      = Message.record (remove_field f RecordField.temperature)
          :: runPipeline (processMessage st (Message.record f)).1 rest ∧
    getField (remove_field f RecordField.temperature) RecordField.temperature
      = none ∧
    getField (remove_field f RecordField.temperature) j = getField f j :=
  ⟨by simp [runPipeline, processMessage], getField_remove_self f _,
    getField_remove_ne f _ j hj⟩

theorem c3_record_temperature_stripped_witness :
    runPipeline reset_values
        [Message.record [(RecordField.temperature, 21), (RecordField.power, 150)]]
      = [Message.record [(RecordField.power, 150)]] ∧
    getField (remove_field
        [(RecordField.temperature, 21), (RecordField.power, 150)]
        RecordField.temperature) RecordField.temperature = none ∧
    getField (remove_field
        [(RecordField.temperature, 21), (RecordField.power, 150)]
        RecordField.temperature) RecordField.power = some 150 := by
  have h := c3_record_temperature_stripped reset_values
    [(RecordField.temperature, 21), (RecordField.power, 150)] []
    RecordField.power (by decide)
  refine ⟨by rw [h.1]; decide, h.2.1, by rw [h.2.2]; decide⟩

/-- C4: the rebuilt Session holds exactly the whitelisted fields that were
present on the input plus the three always-present average fields, and it
replaces the original Session in the output stream. -/
theorem c4_session_whitelist (st : WindowState) (f : FieldTable)
    (rest : List Message) (j : FieldId)
    (hj : j ∉ [SessionField.avg_cadence, SessionField.avg_power,
               SessionField.avg_heart_rate]) :
    getField (build_new_session f st) j
      = (if j ∈ SESSION_COPY_FIELDS then getField f j else none) ∧
    (getField (build_new_session f st) SessionField.avg_cadence).isSome = true ∧
    (getField (build_new_session f st) SessionField.avg_power).isSome = true ∧
    (getField (build_new_session f st) SessionField.avg_heart_rate).isSome
      = true ∧
    runPipeline st (Message.session f :: rest)
      = Message.session (build_new_session f st) :: runPipeline reset_values rest := by
  simp only [List.mem_cons, List.not_mem_nil, or_false, not_or] at hj
  obtain ⟨h1, h2, h3⟩ := hj
  refine ⟨?_, ?_, ?_, ?_, by simp [runPipeline, processMessage]⟩
  · rw [getField_build_new_session, if_neg h3, if_neg h2, if_neg h1]
  · rw [getField_build_new_session, if_neg (by decide), if_neg (by decide),
      if_pos rfl]
    rfl
  · rw [getField_build_new_session, if_neg (by decide), if_pos rfl]
    rfl
  · rw [getField_build_new_session, if_pos rfl]
    rfl

theorem c4_session_whitelist_witness :
    getField (build_new_session
        [(21, 5), (SessionField.timestamp, 7)] reset_values) 21 = none ∧
    getField (build_new_session
        [(21, 5), (SessionField.timestamp, 7)] reset_values)
      SessionField.timestamp = some 7 ∧
    (getField (build_new_session
        [(21, 5), (SessionField.timestamp, 7)] reset_values)
      SessionField.avg_power).isSome = true := by
  have ha := c4_session_whitelist reset_values
    [(21, 5), (SessionField.timestamp, 7)] [] 21 (by decide)
  have hb := c4_session_whitelist reset_values
    [(21, 5), (SessionField.timestamp, 7)] [] SessionField.timestamp (by decide)
  refine ⟨by rw [ha.1]; decide, by rw [hb.1]; decide, ha.2.2.1⟩

theorem lapAppend_eq (lv : List Int) (f : FieldTable) :
    lapAppend lv f = lv ++
      [truthyOrZero (getField f LapField.start_time),
       truthyOrZero (getField f LapField.total_elapsed_time),
       truthyOrZero (getField f LapField.total_distance),
       truthyOrZero (getField f LapField.avg_speed),
       truthyOrZero (getField f LapField.max_speed),
       truthyOrZero (getField f LapField.avg_heart_rate),
       truthyOrZero (getField f LapField.max_heart_rate),
       truthyOrZero (getField f LapField.avg_cadence),
       truthyOrZero (getField f LapField.max_cadence),
       truthyOrZero (getField f LapField.total_calories)] := by
  simp [lapAppend, append_value]

/-- C5: processing a Session resets all four window accumulators to empty,
the stream after a Session continues from the fresh window, and no other
message kind ever shrinks an accumulator (each is preserved as a prefix). -/
theorem c5_session_resets_window (st : WindowState) (f : FieldTable)
    (m : Message) (rest : List Message) (hm : m.isSession = false) :
    (processMessage st (Message.session f)).1 = reset_values ∧
    runPipeline st (Message.session f :: rest)
      = Message.session (build_new_session f st) :: runPipeline reset_values rest ∧
    st.lap_values <+: (processMessage st m).1.lap_values ∧
    st.cadence_values <+: (processMessage st m).1.cadence_values ∧
    st.power_values <+: (processMessage st m).1.power_values ∧
    st.heart_rate_values <+: (processMessage st m).1.heart_rate_values := by
  refine ⟨rfl, by simp [runPipeline, processMessage], ?_, ?_, ?_, ?_⟩
  all_goals cases m with
    | session f2 => exact absurd hm (by simp [Message.isSession])
    | lap f2 =>
        first
          | (show st.lap_values <+: lapAppend st.lap_values f2
             rw [lapAppend_eq]
             exact List.prefix_append _ _)
          | exact List.prefix_rfl
    | record f2 =>
        first
          | exact List.prefix_rfl
          | exact List.prefix_append _ _
    | fileCreator f2 => exact List.prefix_rfl
    | other f2 => exact List.prefix_rfl

theorem c5_session_resets_window_witness :
    (processMessage ⟨[1], [2], [3], [4]⟩ (Message.session [])).1 = reset_values ∧
    ([3] : List Int) <+:
      (processMessage ⟨[1], [2], [3], [4]⟩
        (Message.record [(RecordField.power, 9)])).1.power_values := by
  have h := c5_session_resets_window ⟨[1], [2], [3], [4]⟩ []
    (Message.record [(RecordField.power, 9)]) [] (by decide)
  exact ⟨h.1, h.2.2.2.2.1⟩

/-- C6: a Lap message appends its ten fields (absent means 0) to the
lap-metric list, leaves the other accumulators untouched, is forwarded
unchanged in place, and the lap-metric list never influences the output
(dead accumulation). -/
theorem c6_lap_dead_accumulation (st : WindowState) (f : FieldTable)
    (rest msgs : List Message) (l1 l2 : List Int) :
    lapAppend st.lap_values f = st.lap_values ++
      [truthyOrZero (getField f LapField.start_time),
       truthyOrZero (getField f LapField.total_elapsed_time),
       truthyOrZero (getField f LapField.total_distance),
       truthyOrZero (getField f LapField.avg_speed),
       truthyOrZero (getField f LapField.max_speed),
       truthyOrZero (getField f LapField.avg_heart_rate),
       truthyOrZero (getField f LapField.max_heart_rate),
       truthyOrZero (getField f LapField.avg_cadence),
       truthyOrZero (getField f LapField.max_cadence),
       truthyOrZero (getField f LapField.total_calories)] ∧
    processMessage st (Message.lap f)
      = ({ st with lap_values := lapAppend st.lap_values f }, [Message.lap f]) ∧
    (processMessage st (Message.lap f)).1.cadence_values = st.cadence_values ∧
    (processMessage st (Message.lap f)).1.power_values = st.power_values ∧
    (processMessage st (Message.lap f)).1.heart_rate_values
      = st.heart_rate_values ∧
    runPipeline st (Message.lap f :: rest)
      = Message.lap f
          :: runPipeline { st with lap_values := lapAppend st.lap_values f } rest ∧
    runPipeline { st with lap_values := l1 } msgs
      = runPipeline { st with lap_values := l2 } msgs :=
  ⟨lapAppend_eq st.lap_values f, rfl, rfl, rfl, rfl,
    by simp [runPipeline, processMessage],
    runPipeline_lap_irrel msgs _ _ rfl rfl rfl⟩

/-! ### Error handling of the file-level transform -/

/-- Decode failures of the binary codec (spec section 7). -/
inductive DecodeError where
  | malformedHeader
  | truncated
  | unknownLocalType (slot : Nat)
  | unsupportedFeature
  | checksumMismatch
  deriving DecidableEq, Repr

/-- Encode failures of the binary codec (spec section 7). -/
inductive EncodeError where
  | definitionLimitExceeded
  | internalInconsistency
  deriving DecidableEq, Repr

/-- Any failure raised while transforming one file. -/
inductive FitError where
  | decode (e : DecodeError)
  | encode (e : EncodeError)
  deriving DecidableEq, Repr

/-- `cleanup_fit_file` at file granularity.  `FitFile.from_file` decodes the
whole input before the loop runs; the loop is the total transform
`cleanup_fit_file`; the single `builder.build().to_file(...)` call at the
end encodes and writes.  Decoding and encoding are performed by the
third-party `fit_tool` library, so their outcomes enter as parameters; an
error in either step propagates and aborts the transform. -/
def cleanup_fit_file_run (decoded : Except FitError (List Message))
    (encode : List Message → Except FitError (List Nat)) :
    Except FitError (List Nat) :=
  match decoded with
  | .error e => .error e
  | .ok msgs => encode (cleanup_fit_file msgs)

/-- The bytes present at `new_file_path` after `cleanup_fit_file`: the only
write is the final `to_file`, reached only when decode, transform and encode
have all succeeded, so an error leaves no output bytes (no partial file). -/
def written_output (decoded : Except FitError (List Message))
    (encode : List Message → Except FitError (List Nat)) :
    Option (List Nat) :=
  match cleanup_fit_file_run decoded encode with
  | .ok bytes => some bytes
  | .error _ => none

/-- The `try`/`except` of `cleanup_and_save_fit_file` around
`cleanup_fit_file`: the new path is returned on success and `None` when the
transform raised. -/
def cleanup_and_save_fit_file (new_file_path : String)
    (decoded : Except FitError (List Message))
    (encode : List Message → Except FitError (List Nat)) :
    Option String :=
  match cleanup_fit_file_run decoded encode with
  | .ok _ => some new_file_path
  | .error _ => none

/-- C7: a decode or encode error aborts the whole transform: no output bytes
are written and the caller-facing operation returns `None` instead of a
path; a decode error propagates unchanged. -/
theorem c7_error_aborts_transform (decoded : Except FitError (List Message))
    (encode : List Message → Except FitError (List Nat))
    (new_file_path : String) (e : FitError)
    (h : cleanup_fit_file_run decoded encode = .error e) :
    written_output decoded encode = none ∧
    cleanup_and_save_fit_file new_file_path decoded encode = none ∧
    (decoded = .error e → cleanup_fit_file_run decoded encode = .error e) := by
  refine ⟨?_, ?_, ?_⟩
  · rw [written_output, h]
  · rw [cleanup_and_save_fit_file, h]
  · intro hd
    rw [hd]
    rfl

theorem c7_error_aborts_transform_witness :
    written_output (.error (.decode .truncated)) (fun _ => .ok []) = none ∧
    cleanup_and_save_fit_file "MyNewActivity-1_2024-01-01_000000.fit"
      (.error (.decode .truncated)) (fun _ => .ok []) = none := by
  have h := c7_error_aborts_transform (.error (.decode .truncated))
    (fun _ => .ok []) "MyNewActivity-1_2024-01-01_000000.fit"
    (.decode .truncated) rfl
  exact ⟨h.1, h.2.1⟩

/-! ### Decoder (modelled from the spec) -/

/-- Modelled from the spec: a 3-byte field descriptor of a Definition record
(field id, size in bytes, base type code).  The decoder implementation lives
in the third-party `fit_tool` library, not in this repository, so the
decoder below follows spec sections 4.1, 4.2 and 6. -/
structure FieldDef where
  fieldId : Nat
  size : Nat
  baseType : Nat
  deriving DecidableEq, Repr

/-- Modelled from the spec: a MessageDefinition: byte order, global message
kind, ordered field layout. -/
structure MessageDefinition where
  byteOrderBig : Bool
  globalKind : Nat
  fieldDefs : List FieldDef
  deriving DecidableEq, Repr

/-- Modelled from the spec: the registry binding local type slots to
message definitions; binding a bound slot replaces it (last-write-wins). -/
abbrev Registry := List (Nat × MessageDefinition)

def bindSlot (reg : Registry) (slot : Nat) (d : MessageDefinition) : Registry :=
  (slot, d) :: reg

def lookupSlot (reg : Registry) (slot : Nat) : Option MessageDefinition :=
  (reg.find? (fun p => p.1 == slot)).map (·.2)

/-- Little-endian value of a byte list (first byte least significant). -/
def leVal (bs : List Nat) : Nat := bs.foldr (fun b acc => b + 256 * acc) 0

/-- Big-endian value of a byte list. -/
def beVal (bs : List Nat) : Nat := bs.foldl (fun acc b => 256 * acc + b) 0

/-- Modelled from the spec: read `n` 3-byte field descriptors of a
Definition record body. -/
def readFieldDefs : Nat → List Nat → Option (List FieldDef × List Nat)
  | 0, bytes => some ([], bytes)
  | n + 1, a :: b :: c :: bytes =>
      match readFieldDefs n bytes with
      | some (fds, rest) => some (⟨a, b, c⟩ :: fds, rest)
      | none => none
  | _ + 1, _ => none

/-- Modelled from the spec: decode the raw field bytes of a Data record per
the bound definition's field order, sizes and byte order; a field whose raw
bytes equal the base type's all-bits-set invalid sentinel is absent. -/
def readFields (big : Bool) : List FieldDef → List Nat →
    Option (FieldTable × List Nat)
  | [], bytes => some ([], bytes)
  | fd :: fds, bytes =>
      if bytes.length < fd.size then none
      else
        let raw := bytes.take fd.size
        match readFields big fds (bytes.drop fd.size) with
        | none => none
        | some (tbl, rest) =>
            let v := if big then beVal raw else leVal raw
            some ((if v = 256 ^ fd.size - 1 then tbl
                   else (fd.fieldId, (v : Int)) :: tbl), rest)

/-- Classify a decoded field table by global message kind
(Record 20, Lap 19, Session 18, FileCreator 49, otherwise Other). -/
def classify (kind : Nat) (tbl : FieldTable) : Message :=
  if kind = 20 then .record tbl
  else if kind = 19 then .lap tbl
  else if kind = 18 then .session tbl
  else if kind = 49 then .fileCreator tbl
  else .other tbl

theorem readFieldDefs_length_le :
    ∀ (n : Nat) (bytes : List Nat) (fds : List FieldDef) (rest : List Nat),
      readFieldDefs n bytes = some (fds, rest) → rest.length ≤ bytes.length := by
  intro n
  induction n with
  | zero =>
      intro bytes fds rest h
      simp only [readFieldDefs] at h
      cases h
      exact le_refl _
  | succ n ih =>
      intro bytes fds rest h
      match bytes with
      | [] => simp [readFieldDefs] at h
      | [_] => simp [readFieldDefs] at h
      | [_, _] => simp [readFieldDefs] at h
      | a :: b :: c :: bs =>
          simp only [readFieldDefs] at h
          cases hr : readFieldDefs n bs with
          | none => rw [hr] at h; cases h
          | some pr =>
              rw [hr] at h
              cases h
              have := ih bs pr.1 pr.2 (by rw [hr])
              simp only [List.length_cons]
              omega

theorem readFields_length_le (big : Bool) :
    ∀ (fds : List FieldDef) (bytes : List Nat) (tbl : FieldTable)
      (rest : List Nat),
      readFields big fds bytes = some (tbl, rest) →
        rest.length ≤ bytes.length := by
  intro fds
  induction fds with
  | nil =>
      intro bytes tbl rest h
      simp only [readFields] at h
      cases h
      exact le_refl _
  | cons fd fds ih =>
      intro bytes tbl rest h
      simp only [readFields] at h
      by_cases hlt : bytes.length < fd.size
      · rw [if_pos hlt] at h; cases h
      · rw [if_neg hlt] at h
        cases hr : readFields big fds (bytes.drop fd.size) with
        | none => rw [hr] at h; cases h
        | some pr =>
            rw [hr] at h
            cases h
            have := ih (bytes.drop fd.size) pr.1 pr.2 (by rw [hr])
            have hd : (bytes.drop fd.size).length ≤ bytes.length := by
              simp
            omega

/-- Modelled from the spec: the record-level decode loop.  The record header
byte selects compressed-timestamp (bit 7, unsupported), Definition vs Data
(bit 6) and the local type slot (bits 0-3).  A Definition record binds its
slot; a Data record is decoded against the definition bound to its slot and
fails with `UnknownLocalType` when none is bound. -/
def decodeRecords (reg : Registry) (bytes : List Nat) :
    Except DecodeError (List Message) :=
  match bytes with
  | [] => .ok []
  | hb :: rest =>
      if 128 ≤ hb then .error .unsupportedFeature
      else if 64 ≤ hb then
        match rest with
        | _r :: arch :: g0 :: g1 :: n :: rest2 =>
            match hfd : readFieldDefs n rest2 with
            | none => .error .truncated
            | some (fds, rest3) =>
                decodeRecords
                  (bindSlot reg (hb % 16)
                    ⟨arch == 1,
                     if arch == 1 then beVal [g0, g1] else leVal [g0, g1],
                     fds⟩)
                  rest3
        | _ => .error .truncated
      else
        match lookupSlot reg (hb % 16) with
        | none => .error (.unknownLocalType (hb % 16))
        | some d =>
            match hf : readFields d.byteOrderBig d.fieldDefs rest with
            | none => .error .truncated
            | some (tbl, rest2) =>
                match decodeRecords reg rest2 with
                | .error e => .error e
                | .ok msgs => .ok (classify d.globalKind tbl :: msgs)
termination_by bytes.length
decreasing_by
  · have := readFieldDefs_length_le n rest2 fds rest3 hfd
    simp only [List.length_cons]
    omega
  · have := readFields_length_le d.byteOrderBig d.fieldDefs rest tbl rest2 hf
    simp only [List.length_cons]
    omega

/-- Serialization of field descriptors, used to state the shape-matching
decode property. -/
def encodeFieldDefs (fds : List FieldDef) : List Nat :=
  fds.foldr (fun fd acc => fd.fieldId :: fd.size :: fd.baseType :: acc) []

/-- Total declared byte size of a definition's fields. -/
def totalFieldSize (fds : List FieldDef) : Nat :=
  (fds.map (·.size)).sum

theorem readFieldDefs_encode (fds : List FieldDef) (tail : List Nat) :
    readFieldDefs fds.length (encodeFieldDefs fds ++ tail) = some (fds, tail) := by
  induction fds with
  | nil => rfl
  | cons fd fds ih =>
      simp only [encodeFieldDefs, List.foldr_cons, List.length_cons,
        List.cons_append, readFieldDefs, List.append_eq]
      rw [show (List.foldr (fun fd acc => fd.fieldId :: fd.size :: fd.baseType :: acc)
          [] fds) = encodeFieldDefs fds from rfl, ih]

theorem readFields_total (big : Bool) :
    ∀ (fds : List FieldDef) (payload : List Nat),
      payload.length = totalFieldSize fds →
      ∃ tbl : FieldTable, readFields big fds payload = some (tbl, []) := by
  intro fds
  induction fds with
  | nil =>
      intro payload hlen
      have : payload = [] := by
        cases payload with
        | nil => rfl
        | cons a l => simp [totalFieldSize] at hlen
      subst this
      exact ⟨[], rfl⟩
  | cons fd fds ih =>
      intro payload hlen
      have hsize : payload.length = fd.size + totalFieldSize fds := by
        simpa [totalFieldSize] using hlen
      have hge : ¬ payload.length < fd.size := by omega
      have hdrop : (payload.drop fd.size).length = totalFieldSize fds := by
        simp [hsize]
      obtain ⟨tbl, htbl⟩ := ih (payload.drop fd.size) hdrop
      refine ⟨if (if big then beVal (payload.take fd.size)
                  else leVal (payload.take fd.size)) = 256 ^ fd.size - 1
              then tbl
              else (fd.fieldId, Int.ofNat (if big then beVal (payload.take fd.size)
                  else leVal (payload.take fd.size))) :: tbl, ?_⟩
      simp only [readFields, if_neg hge, htbl]
      rfl

/-- C8: a Data record whose local slot has no bound definition fails with
`UnknownLocalType`, while a Definition record immediately followed by a Data
record of exactly the declared shape decodes successfully. -/
theorem c8_unknown_slot_and_defn_data (reg reg2 : Registry) (hb : Nat)
    (rest : List Nat) (s r a g0 g1 : Nat) (fds : List FieldDef)
    (payload : List Nat) (hhb : hb < 64)
    (hnone : lookupSlot reg (hb % 16) = none) (hs : s < 16)
    (hlen : payload.length = totalFieldSize fds) :
    decodeRecords reg (hb :: rest) = .error (.unknownLocalType (hb % 16)) ∧
    ∃ msg : Message,
      decodeRecords reg2
          ((64 + s) :: r :: a :: g0 :: g1 :: fds.length
            :: (encodeFieldDefs fds ++ s :: payload))
        = .ok [msg] := by
  constructor
  · rw [decodeRecords.eq_def]
    simp only [if_neg (show ¬ 128 ≤ hb by omega),
      if_neg (show ¬ 64 ≤ hb by omega), hnone]
  · obtain ⟨tbl, htbl⟩ := readFields_total (a == 1 : Bool) fds payload hlen
    refine ⟨classify (if a == 1 then beVal [g0, g1] else leVal [g0, g1]) tbl, ?_⟩
    rw [decodeRecords.eq_def]
    simp only [if_neg (show ¬ 128 ≤ 64 + s by omega),
      if_pos (show 64 ≤ 64 + s by omega)]
    split
    · next heq =>
        rw [readFieldDefs_encode fds (s :: payload)] at heq
        cases heq
    · next fds2 rest3 heq =>
        rw [readFieldDefs_encode fds (s :: payload)] at heq
        cases heq
        have hmod : (64 + s) % 16 = s := by omega
        rw [decodeRecords.eq_def]
        simp only [if_neg (show ¬ 128 ≤ s by omega),
          if_neg (show ¬ 64 ≤ s by omega), hmod]
        simp only [show s % 16 = s from by omega]
        rw [show lookupSlot (bindSlot reg2 s
            ⟨a == 1, if a == 1 then beVal [g0, g1] else leVal [g0, g1], fds⟩) s
          = some ⟨a == 1, if a == 1 then beVal [g0, g1] else leVal [g0, g1], fds⟩
          from by simp [lookupSlot, bindSlot]]
        split
        · next hcontr => exact absurd hcontr (by simp)
        · next d2 hd2 =>
            injection hd2 with hd2e
            subst hd2e
            split
            · next hf3 =>
                have hf3x : readFields (a == 1 : Bool) fds payload = none := hf3
                rw [htbl] at hf3x
                cases hf3x
            · next tbl3 rest5 hf3 =>
                have hf3x : readFields (a == 1 : Bool) fds payload
                    = some (tbl3, rest5) := hf3
                rw [htbl] at hf3x
                obtain ⟨h1, h2⟩ : tbl3 = tbl ∧ rest5 = [] := by
                  have hx := hf3x
                  simp only [Option.some.injEq, Prod.mk.injEq] at hx
                  exact ⟨hx.1.symm, hx.2.symm⟩
                subst h1
                subst h2
                rw [decodeRecords.eq_def]


theorem c8_unknown_slot_and_defn_data_witness :
    decodeRecords [] [5] = .error (.unknownLocalType 5) ∧
    ∃ msg : Message,
      decodeRecords [] [64, 0, 0, 20, 0, 1, 3, 1, 2, 0, 100] = .ok [msg] := by
  have h := c8_unknown_slot_and_defn_data [] [] 5 [] 0 0 0 20 0
    [⟨3, 1, 2⟩] [100] (by omega) rfl (by omega) (by decide)
  exact ⟨h.1, h.2⟩

/-! ### `get_most_recent_fit_file` -/

/-- A file name, as its character sequence. -/
abbrev FileName := List Char

/-- Whether a name matches the glob pattern `MyNewActivity-*.fit`: the fixed
prefix, then anything, then the fixed suffix (the two parts cannot overlap
on these fixed strings). -/
def matchesActivityPattern (name : FileName) : Bool :=
  "MyNewActivity-".toList.isPrefixOf name
    && ".fit".toList.isSuffixOf name

/-- `re.findall(r'(\d+)', s)` followed by `int` on each match: the maximal
runs of decimal digits, as numbers, in order.  The accumulator carries the
value of the digit run currently being read, if any. -/
def digitRunsAux : List Char → Option Nat → List Nat
  | [], none => []
  | [], some acc => [acc]
  | c :: cs, cur =>
      if c.isDigit then
        digitRunsAux cs (some (10 * cur.getD 0 + (c.toNat - 48)))
      else
        match cur with
        | none => digitRunsAux cs none
        | some acc => acc :: digitRunsAux cs none

def digitRuns (cs : List Char) : List Nat := digitRunsAux cs none

/-- `str.split('-')` for the one-character separator `-`. -/
def splitOnDash : List Char → List (List Char)
  | [] => [[]]
  | c :: rest =>
      if c = '-' then [] :: splitOnDash rest
      else
        match splitOnDash rest with
        | [] => [[c]]
        | h :: t => (c :: h) :: t

/-- `extract_version`: the stem (`Path.stem`, i.e. the name without its
`.fit` suffix — on glob matches of `MyNewActivity-*.fit` the last dot is
always the one before `fit`), split on `-`, last piece, its digit runs; no
digits gives `(0,)`. -/
def extract_version (name : FileName) : List Nat :=
  let stem := name.take (name.length - 4)
  let version_str := (splitOnDash stem).getLastD []
  let numbers := digitRuns version_str
  if numbers = [] then [0] else numbers

/-- Python tuple `<` on tuples of numbers: lexicographic, with a strict
prefix smaller than any extension. -/
def versionLt : List Nat → List Nat → Bool
  | [], [] => false
  | [], _ :: _ => true
  | _ :: _, [] => false
  | a :: as, b :: bs =>
      if a < b then true else if b < a then false else versionLt as bs

/-- One comparison step of `sorted(fit_files, key=extract_version,
reverse=True)[0]`: keep the current best unless the candidate's version is
strictly greater (stability of Python's sort keeps the earlier of equals
first). -/
def pickBest (best cand : FileName) : FileName :=
  if versionLt (extract_version best) (extract_version cand) then cand
  else best

/-- `get_most_recent_fit_file` on the name list the glob produced, in glob
order: `None` when no name matches the pattern, otherwise the first name
with the maximal extracted version. -/
def get_most_recent_fit_file (names : List FileName) : Option FileName :=
  match names.filter matchesActivityPattern with
  | [] => none
  | f :: fs => some (fs.foldl pickBest f)

theorem versionLt_irrefl (a : List Nat) : versionLt a a = false := by
  induction a with
  | nil => rfl
  | cons x a ih => simp [versionLt, ih]

theorem versionLt_trans :
    ∀ a b c : List Nat, versionLt a b = true → versionLt b c = true →
      versionLt a c = true := by
  intro a
  induction a with
  | nil =>
      intro b c hab hbc
      cases b with
      | nil => exact absurd hab (by simp [versionLt])
      | cons y bs =>
          cases c with
          | nil => exact absurd hbc (by simp [versionLt])
          | cons z cs => simp [versionLt]
  | cons x as ih =>
      intro b c hab hbc
      cases b with
      | nil => exact absurd hab (by simp [versionLt])
      | cons y bs =>
          cases c with
          | nil => exact absurd hbc (by simp [versionLt])
          | cons z cs =>
              simp only [versionLt] at hab hbc ⊢
              split_ifs at hab hbc ⊢ <;> try omega
              all_goals try rfl
              all_goals try exact ih bs cs hab hbc

theorem versionLt_not :
    ∀ a b c : List Nat, versionLt a b = false → versionLt b c = false →
      versionLt a c = false := by
  intro a
  induction a with
  | nil =>
      intro b c hab hbc
      cases b with
      | nil =>
          cases c with
          | nil => rfl
          | cons z cs => exact absurd hbc (by simp [versionLt])
      | cons y bs => exact absurd hab (by simp [versionLt])
  | cons x as ih =>
      intro b c hab hbc
      cases b with
      | nil =>
          cases c with
          | nil => rfl
          | cons z cs => exact absurd hbc (by simp [versionLt])
      | cons y bs =>
          cases c with
          | nil => rfl
          | cons z cs =>
              simp only [versionLt] at hab hbc ⊢
              split_ifs at hab hbc ⊢ <;> try omega
              all_goals try rfl
              all_goals try exact ih bs cs hab hbc

theorem foldl_pickBest_mem (fs : List FileName) :
    ∀ f : FileName, fs.foldl pickBest f ∈ f :: fs := by
  induction fs with
  | nil => intro f; simp
  | cons c fs ih =>
      intro f
      have h := ih (pickBest f c)
      rw [List.foldl_cons]
      rcases List.mem_cons.mp h with h1 | h1
      · rw [h1, pickBest]
        split_ifs
        · simp
        · simp
      · simp [List.mem_cons.mpr (Or.inr (List.mem_cons.mpr (Or.inr h1)))]

theorem foldl_pickBest_max (fs : List FileName) :
    ∀ f g : FileName, g ∈ f :: fs →
      versionLt (extract_version (fs.foldl pickBest f)) (extract_version g)
        = false := by
  induction fs with
  | nil =>
      intro f g hg
      simp at hg
      subst hg
      exact versionLt_irrefl _
  | cons c fs ih =>
      intro f g hg
      rw [List.foldl_cons]
      rcases List.mem_cons.mp hg with h1 | h1
      · subst h1
        by_cases hfc : versionLt (extract_version g) (extract_version c) = true
        · have hbest := ih (pickBest g c) c (by simp [pickBest, hfc])
          by_contra hcon
          simp only [Bool.not_eq_false] at hcon
          exact absurd (versionLt_trans _ _ _ hcon hfc)
            (by simp [hbest])
        · have hp : pickBest g c = g := by
            rw [pickBest, if_neg hfc]
          exact ih (pickBest g c) g (by rw [hp]; simp)
      · rcases List.mem_cons.mp h1 with h2 | h2
        · subst h2
          by_cases hfc : versionLt (extract_version f) (extract_version g) = true
          · exact ih (pickBest f g) g (by simp [pickBest, hfc])
          · have hp : pickBest f g = f := by
              rw [pickBest, if_neg hfc]
            have hbf := ih (pickBest f g) (pickBest f g) (by simp)
            rw [hp] at hbf
            have hfg : versionLt (extract_version f) (extract_version g)
                = false := by
              simpa using hfc
            rw [hp]
            exact versionLt_not _ _ _ hbf hfg
        · exact ih (pickBest f c) g (by simp [h2])

/-- C9: `get_most_recent_fit_file` returns `None` exactly when no name
matches `MyNewActivity-*.fit`; otherwise it returns a matching name of the
directory whose extracted version tuple is maximal — nothing else (in
particular no modification time) enters the choice. -/
theorem c9_most_recent_by_version (names : List FileName) :
    (get_most_recent_fit_file names = none ↔
      ∀ g ∈ names, matchesActivityPattern g = false) ∧
    (∀ f : FileName, get_most_recent_fit_file names = some f →
      f ∈ names ∧ matchesActivityPattern f = true ∧
      ∀ g ∈ names, matchesActivityPattern g = true →
        versionLt (extract_version f) (extract_version g) = false) := by
  constructor
  · cases hfil : names.filter matchesActivityPattern with
    | nil =>
        simp only [get_most_recent_fit_file, hfil]
        constructor
        · intro _ g hg
          by_contra hcon
          simp only [Bool.not_eq_false] at hcon
          have : g ∈ names.filter matchesActivityPattern :=
            List.mem_filter.mpr ⟨hg, hcon⟩
          rw [hfil] at this
          exact absurd this (List.not_mem_nil g)
        · intro _
          trivial
    | cons f0 fs =>
        simp only [get_most_recent_fit_file, hfil]
        constructor
        · intro hcon
          cases hcon
        · intro hall
          have hmem : f0 ∈ names.filter matchesActivityPattern := by
            rw [hfil]
            simp
          have := hall f0 (List.mem_of_mem_filter hmem)
          rw [List.of_mem_filter hmem] at this
          cases this
  · intro f hf
    cases hfil : names.filter matchesActivityPattern with
    | nil =>
        simp only [get_most_recent_fit_file, hfil] at hf
        cases hf
    | cons f0 fs =>
        simp only [get_most_recent_fit_file, hfil] at hf
        injection hf with hf
        subst hf
        have hmem : fs.foldl pickBest f0 ∈ f0 :: fs := foldl_pickBest_mem fs f0
        have hmemfil :
            fs.foldl pickBest f0 ∈ names.filter matchesActivityPattern := by
          rw [hfil]
          exact hmem
        refine ⟨List.mem_of_mem_filter hmemfil, List.of_mem_filter hmemfil, ?_⟩
        intro g hg hpat
        have hgfil : g ∈ names.filter matchesActivityPattern :=
          List.mem_filter.mpr ⟨hg, hpat⟩
        rw [hfil] at hgfil
        exact foldl_pickBest_max fs f0 g hgfil

theorem c9_most_recent_by_version_witness :
    get_most_recent_fit_file
        ["MyNewActivity-3.8.5.fit".toList, "other.txt".toList,
         "MyNewActivity-10.fit".toList]
      = some "MyNewActivity-10.fit".toList ∧
    matchesActivityPattern "MyNewActivity-10.fit".toList = true ∧
    versionLt (extract_version "MyNewActivity-10.fit".toList)
        (extract_version "MyNewActivity-3.8.5.fit".toList) = false := by
  have h := (c9_most_recent_by_version
      ["MyNewActivity-3.8.5.fit".toList, "other.txt".toList,
       "MyNewActivity-10.fit".toList]).2
    "MyNewActivity-10.fit".toList (by decide)
  exact ⟨by decide, h.2.1,
    h.2.2 "MyNewActivity-3.8.5.fit".toList (by decide) (by decide)⟩

/-! ### `upload_fit_file_to_garmin` and `main` -/

/-- Outcome of the Garth upload call inside the `try` block. -/
inductive UploadOutcome where
  | ok
  | garthHTTPError
  | otherException
  deriving DecidableEq, Repr

/-- `upload_fit_file_to_garmin`: `False` for an invalid path; `True` on a
successful upload; both `GarthHTTPError` (duplicate activity) and any other
exception are caught and turned into a `False` return. -/
def upload_fit_file_to_garmin (file_exists : Bool)
    (outcome : UploadOutcome) : Bool :=
  if !file_exists then false
  else
    match outcome with
    | .ok => true
    | .garthHTTPError => false
    | .otherException => false

/-- The outcomes of the steps `main` performs, in order. -/
structure MainEnv where
  ensure_packages : Bool
  import_required_modules : Bool
  fitfile_location : Option FileName
  backup_path : Option FileName
  authenticate_to_garmin : Bool
  cleanup_result : Option FileName
  upload_file_exists : Bool
  upload_outcome : UploadOutcome

/-- `main`: each failing step returns exit code 1; after a successful
cleanup the upload is attempted and its boolean result is discarded. -/
def main (env : MainEnv) : Int :=
  if !env.ensure_packages then 1
  else if !env.import_required_modules then 1
  else
    match env.fitfile_location with
    | none => 1
    | some _ =>
        match env.backup_path with
        | none => 1
        | some _ =>
            if !env.authenticate_to_garmin then 1
            else
              match env.cleanup_result with
              | none => 1
              | some _ =>
                  let _ := upload_fit_file_to_garmin env.upload_file_exists
                    env.upload_outcome
                  0

/-- C10: when setup, imports, file location, backup path, authentication and
cleanup all succeed, `main` returns `0` for every upload outcome — the
upload result is discarded, and upload errors yield a `False` return from
`upload_fit_file_to_garmin` rather than an exception. -/
theorem c10_main_ignores_upload_result (env : MainEnv) (loc bak res : FileName)
    (h1 : env.ensure_packages = true)
    (h2 : env.import_required_modules = true)
    (h3 : env.fitfile_location = some loc)
    (h4 : env.backup_path = some bak)
    (h5 : env.authenticate_to_garmin = true)
    (h6 : env.cleanup_result = some res) :
    main env = 0 ∧
    (∀ b : Bool, upload_fit_file_to_garmin b .garthHTTPError = false) ∧
    (∀ b : Bool, upload_fit_file_to_garmin b .otherException = false) := by
  refine ⟨?_, ?_, ?_⟩
  · rw [main, h3, h4, h6]
    simp [h1, h2, h5]
  · intro b
    cases b <;> rfl
  · intro b
    cases b <;> rfl

theorem c10_main_ignores_upload_result_witness :
    main ⟨true, true, some "loc".toList, some "bak".toList, true,
          some "res".toList, true, .garthHTTPError⟩ = 0 ∧
    main ⟨true, true, some "loc".toList, some "bak".toList, true,
          some "res".toList, true, .ok⟩ = 0 := by
  have ha := c10_main_ignores_upload_result
    ⟨true, true, some "loc".toList, some "bak".toList, true,
     some "res".toList, true, .garthHTTPError⟩
    "loc".toList "bak".toList "res".toList rfl rfl rfl rfl rfl rfl
  have hb := c10_main_ignores_upload_result
    ⟨true, true, some "loc".toList, some "bak".toList, true,
     some "res".toList, true, .ok⟩
    "loc".toList "bak".toList "res".toList rfl rfl rfl rfl rfl rfl
  exact ⟨ha.1, hb.1⟩

end MW2G
